import Mathlib

/-!
Verification of the cube-surface snake renderer (`src/renderer.rs`).

The per-frame geometry of the renderer is exact arithmetic on grid
coordinates, so it is embedded over `ℚ`; the only irrational operations
(vector normalization, the sinusoidal food bounce) are embedded over `ℝ`.
The game-rule crate (`crate::game`) is not part of the sources; its data
types are modelled from the spec's data-model section.
-/

namespace SnakeRenderer

/-- Modelled from the spec: `Face` of `crate::game` (not under `src/`),
one of the six cube sides. -/
inductive Face where
  | Front
  | Back
  | Left
  | Right
  | Top
  | Bottom
deriving DecidableEq, Repr

/-- Modelled from the spec: `Position` of `crate::game` (not under `src/`),
a discrete cell `(face, u, v)` on one face. -/
structure Position where
  face : Face
  u : ℤ
  v : ℤ
deriving DecidableEq, Repr

/-- Exact-arithmetic 3D vector (models `three_d::Vec3` values that are
rational in exact arithmetic). -/
structure Vec3 where
  x : ℚ
  y : ℚ
  z : ℚ
deriving DecidableEq, Repr

/-- `GameRenderer::pos_to_vec3` (renderer.rs:390-414): map a discrete cell
to a world point on the cube surface. -/
def posToVec3 (pos : Position) (cellSize offset : ℚ) : Vec3 :=
  let u : ℚ := pos.u
  let v : ℚ := pos.v
  let halfSize := cellSize / 2
  let uLocal := -1 + (u * cellSize) + halfSize
  let vLocal := -1 + (v * cellSize) + halfSize
  let surface := 1 + offset
  match pos.face with
  | Face.Front => ⟨uLocal, vLocal, surface⟩
  | Face.Back => ⟨-uLocal, vLocal, -surface⟩
  | Face.Right => ⟨surface, vLocal, -uLocal⟩
  | Face.Left => ⟨-surface, vLocal, uLocal⟩
  | Face.Top => ⟨uLocal, surface, -vLocal⟩
  | Face.Bottom => ⟨uLocal, -surface, vLocal⟩

/-- `GameRenderer::update_camera_target` (renderer.rs:226-238): target
camera position and up vector for a face at a given distance. -/
def updateCameraTarget (face : Face) (distance : ℚ) : Vec3 × Vec3 :=
  match face with
  | Face.Front => (⟨0, 0, distance⟩, ⟨0, 1, 0⟩)
  | Face.Back => (⟨0, 0, -distance⟩, ⟨0, 1, 0⟩)
  | Face.Left => (⟨-distance, 0, 0⟩, ⟨0, 1, 0⟩)
  | Face.Right => (⟨distance, 0, 0⟩, ⟨0, 1, 0⟩)
  | Face.Top => (⟨0, distance, 0⟩, ⟨0, 0, -1⟩)
  | Face.Bottom => (⟨0, -distance, 0⟩, ⟨0, 0, 1⟩)

/-- C1: `pos_to_vec3` realizes exactly the six-face table of the spec:
with `uLocal = -1 + u*cellSize + cellSize/2`, `vLocal` likewise and
`surface = 1 + offset`, Front maps to `(uLocal, vLocal, +surface)`,
Back to `(-uLocal, vLocal, -surface)`, Right to `(+surface, vLocal, -uLocal)`,
Left to `(-surface, vLocal, uLocal)`, Top to `(uLocal, +surface, -vLocal)`
and Bottom to `(uLocal, -surface, vLocal)`. -/
theorem posToVec3_table (u v : ℤ) (cellSize offset : ℚ) :
    posToVec3 ⟨Face.Front, u, v⟩ cellSize offset =
      ⟨-1 + (u : ℚ) * cellSize + cellSize / 2,
       -1 + (v : ℚ) * cellSize + cellSize / 2, 1 + offset⟩
    ∧ posToVec3 ⟨Face.Back, u, v⟩ cellSize offset =
      ⟨-(-1 + (u : ℚ) * cellSize + cellSize / 2),
       -1 + (v : ℚ) * cellSize + cellSize / 2, -(1 + offset)⟩
    ∧ posToVec3 ⟨Face.Right, u, v⟩ cellSize offset =
      ⟨1 + offset, -1 + (v : ℚ) * cellSize + cellSize / 2,
       -(-1 + (u : ℚ) * cellSize + cellSize / 2)⟩
    ∧ posToVec3 ⟨Face.Left, u, v⟩ cellSize offset =
      ⟨-(1 + offset), -1 + (v : ℚ) * cellSize + cellSize / 2,
       -1 + (u : ℚ) * cellSize + cellSize / 2⟩
    ∧ posToVec3 ⟨Face.Top, u, v⟩ cellSize offset =
      ⟨-1 + (u : ℚ) * cellSize + cellSize / 2, 1 + offset,
       -(-1 + (v : ℚ) * cellSize + cellSize / 2)⟩
    ∧ posToVec3 ⟨Face.Bottom, u, v⟩ cellSize offset =
      ⟨-1 + (u : ℚ) * cellSize + cellSize / 2, -(1 + offset),
       -1 + (v : ℚ) * cellSize + cellSize / 2⟩ := by
  refine ⟨rfl, rfl, rfl, rfl, rfl, rfl⟩

/-- C2: `update_camera_target` realizes exactly the spec's pose table:
Front to `((0,0,+d), up (0,1,0))`, Back to `((0,0,-d), up (0,1,0))`,
Left to `((-d,0,0), up (0,1,0))`, Right to `((+d,0,0), up (0,1,0))`,
Top to `((0,+d,0), up (0,0,-1))` and Bottom to `((0,-d,0), up (0,0,1))`. -/
theorem updateCameraTarget_table (d : ℚ) :
    updateCameraTarget Face.Front d = (⟨0, 0, d⟩, ⟨0, 1, 0⟩)
    ∧ updateCameraTarget Face.Back d = (⟨0, 0, -d⟩, ⟨0, 1, 0⟩)
    ∧ updateCameraTarget Face.Left d = (⟨-d, 0, 0⟩, ⟨0, 1, 0⟩)
    ∧ updateCameraTarget Face.Right d = (⟨d, 0, 0⟩, ⟨0, 1, 0⟩)
    ∧ updateCameraTarget Face.Top d = (⟨0, d, 0⟩, ⟨0, 0, -1⟩)
    ∧ updateCameraTarget Face.Bottom d = (⟨0, -d, 0⟩, ⟨0, 0, 1⟩) := by
  refine ⟨rfl, rfl, rfl, rfl, rfl, rfl⟩

/-- Real-valued 3D vector, for the renderer values that are irrational in
exact arithmetic (normalized directions, the sinusoidal bounce). -/
structure RVec3 where
  x : ℝ
  y : ℝ
  z : ℝ

/-- Coerce an exact rational vector into the real-valued model. -/
def toR (v : Vec3) : RVec3 :=
  ⟨(v.x : ℝ), (v.y : ℝ), (v.z : ℝ)⟩

def rvadd (a b : RVec3) : RVec3 :=
  ⟨a.x + b.x, a.y + b.y, a.z + b.z⟩

def rvsub (a b : RVec3) : RVec3 :=
  ⟨a.x - b.x, a.y - b.y, a.z - b.z⟩

def rsmul (c : ℝ) (v : RVec3) : RVec3 :=
  ⟨c * v.x, c * v.y, c * v.z⟩

/-- `cgmath` `lerp`: `a + (b - a) * t`. -/
def lerpR (a b : RVec3) (t : ℝ) : RVec3 :=
  rvadd a (rsmul t (rvsub b a))

/-- Squared Euclidean norm. -/
def normSqR (v : RVec3) : ℝ :=
  v.x ^ 2 + v.y ^ 2 + v.z ^ 2

/-- `cgmath` `normalize`: `v / |v|` (division by the Euclidean norm). -/
noncomputable def normalizeR (v : RVec3) : RVec3 :=
  rsmul (Real.sqrt (normSqR v))⁻¹ v

/-- Camera pose: position and up vector (look-at fixed at the origin). -/
structure CameraPose where
  pos : RVec3
  up : RVec3

/-- The per-frame camera interpolation of `GameRenderer::render`
(renderer.rs:256-274): `t = min(speed*dt, 1)` with `speed = 5.0`, position
lerped, up lerped then renormalized. -/
noncomputable def cameraAdvance (cur tgt : CameraPose) (dt : ℝ) : CameraPose :=
  let t := min (5 * dt) 1
  ⟨lerpR cur.pos tgt.pos t, normalizeR (lerpR cur.up tgt.up t)⟩

theorem RVec3.ext_iff {a b : RVec3} : a = b ↔ a.x = b.x ∧ a.y = b.y ∧ a.z = b.z := by
  constructor
  · intro h
    subst h
    exact ⟨rfl, rfl, rfl⟩
  · intro h
    cases a
    cases b
    simp only [RVec3.mk.injEq]
    exact ⟨h.1, h.2.1, h.2.2⟩

theorem normSqR_nonneg (v : RVec3) : 0 ≤ normSqR v := by
  unfold normSqR
  positivity

theorem normSqR_eq_zero {v : RVec3} (h : normSqR v = 0) : v = ⟨0, 0, 0⟩ := by
  unfold normSqR at h
  have hx : v.x = 0 := by nlinarith [sq_nonneg v.x, sq_nonneg v.y, sq_nonneg v.z]
  have hy : v.y = 0 := by nlinarith [sq_nonneg v.x, sq_nonneg v.y, sq_nonneg v.z]
  have hz : v.z = 0 := by nlinarith [sq_nonneg v.x, sq_nonneg v.y, sq_nonneg v.z]
  exact RVec3.ext_iff.mpr ⟨hx, hy, hz⟩

theorem normSqR_normalizeR {v : RVec3} (h : normSqR v ≠ 0) :
    normSqR (normalizeR v) = 1 := by
  have hS : 0 ≤ normSqR v := normSqR_nonneg v
  have hsq : Real.sqrt (normSqR v) ^ 2 = normSqR v := Real.sq_sqrt hS
  unfold normalizeR rsmul
  unfold normSqR at *
  have key : ((Real.sqrt (v.x ^ 2 + v.y ^ 2 + v.z ^ 2))⁻¹ * v.x) ^ 2 +
      ((Real.sqrt (v.x ^ 2 + v.y ^ 2 + v.z ^ 2))⁻¹ * v.y) ^ 2 +
      ((Real.sqrt (v.x ^ 2 + v.y ^ 2 + v.z ^ 2))⁻¹ * v.z) ^ 2 =
      (Real.sqrt (v.x ^ 2 + v.y ^ 2 + v.z ^ 2) ^ 2)⁻¹ *
        (v.x ^ 2 + v.y ^ 2 + v.z ^ 2) := by
    ring
  simp only [key, hsq]
  exact inv_mul_cancel₀ h

theorem normalizeR_of_unit {v : RVec3} (h : normSqR v = 1) : normalizeR v = v := by
  unfold normalizeR
  rw [h, Real.sqrt_one, inv_one]
  unfold rsmul
  exact RVec3.ext_iff.mpr ⟨one_mul _, one_mul _, one_mul _⟩

theorem lerpR_zero (a b : RVec3) : lerpR a b 0 = a := by
  unfold lerpR rvadd rsmul rvsub
  exact RVec3.ext_iff.mpr ⟨by ring, by ring, by ring⟩

theorem lerpR_one (a b : RVec3) : lerpR a b 1 = b := by
  unfold lerpR rvadd rsmul rvsub
  exact RVec3.ext_iff.mpr ⟨by ring, by ring, by ring⟩

/-- C3 (amended): for current and target poses whose up vectors have unit
length and whose interpolated up vector is nonzero, the per-frame camera
advance sets the new position to `lerp(curPos, tgtPos, t)` and the new up
to `normalize(lerp(curUp, tgtUp, t))` with `t = min(5*dt, 1)`; for
`dt ≥ 0.2` the pose equals the target exactly, for `dt = 0` it is
unchanged, and the returned up vector has unit length. -/
theorem cameraAdvance_spec (cur tgt : CameraPose) (dt : ℝ)
    (hcur : normSqR cur.up = 1) (htgt : normSqR tgt.up = 1)
    (hnz : lerpR cur.up tgt.up (min (5 * dt) 1) ≠ ⟨0, 0, 0⟩) :
    (cameraAdvance cur tgt dt).pos = lerpR cur.pos tgt.pos (min (5 * dt) 1)
    ∧ (cameraAdvance cur tgt dt).up = normalizeR (lerpR cur.up tgt.up (min (5 * dt) 1))
    ∧ (0.2 ≤ dt →
        (cameraAdvance cur tgt dt).pos = tgt.pos ∧ (cameraAdvance cur tgt dt).up = tgt.up)
    ∧ (dt = 0 →
        (cameraAdvance cur tgt dt).pos = cur.pos ∧ (cameraAdvance cur tgt dt).up = cur.up)
    ∧ normSqR (cameraAdvance cur tgt dt).up = 1 := by
  refine ⟨rfl, rfl, ?_, ?_, ?_⟩
  · intro hdt
    have ht : min (5 * dt) 1 = 1 := min_eq_right (by nlinarith)
    constructor
    · show lerpR cur.pos tgt.pos (min (5 * dt) 1) = tgt.pos
      rw [ht, lerpR_one]
    · show normalizeR (lerpR cur.up tgt.up (min (5 * dt) 1)) = tgt.up
      rw [ht, lerpR_one]
      exact normalizeR_of_unit htgt
  · intro hdt
    have ht : min (5 * dt) 1 = 0 := by
      rw [hdt]
      simp
    constructor
    · show lerpR cur.pos tgt.pos (min (5 * dt) 1) = cur.pos
      rw [ht, lerpR_zero]
    · show normalizeR (lerpR cur.up tgt.up (min (5 * dt) 1)) = cur.up
      rw [ht, lerpR_zero]
      exact normalizeR_of_unit hcur
  · have hnz' : normSqR (lerpR cur.up tgt.up (min (5 * dt) 1)) ≠ 0 := by
      intro h0
      exact hnz (normSqR_eq_zero h0)
    exact normSqR_normalizeR hnz'

/-- Witness for C3's amended theorem at a concrete pose:
current `((4,4,4), up (0,1,0))`, target `((0,0,4.5), up (0,1,0))`, `dt = 1`. -/
theorem cameraAdvance_spec_inst :
    normSqR (cameraAdvance ⟨⟨4, 4, 4⟩, ⟨0, 1, 0⟩⟩ ⟨⟨0, 0, 4.5⟩, ⟨0, 1, 0⟩⟩ 1).up = 1 := by
  have h := cameraAdvance_spec ⟨⟨4, 4, 4⟩, ⟨0, 1, 0⟩⟩ ⟨⟨0, 0, 4.5⟩, ⟨0, 1, 0⟩⟩ 1
    (by simp [normSqR]) (by simp [normSqR])
    (by
      intro hc
      rw [RVec3.ext_iff] at hc
      have hy := hc.2.1
      simp [lerpR, rvadd, rsmul, rvsub] at hy)
  exact h.2.2.2.2

/-- Counterexample to C3 as stated (quantified over every current pose):
with current up `(0,0,1)`, target up `(0,0,-1)` and `dt = 0.1` the
interpolated up is the zero vector, so the returned up does not have unit
length; and with a non-unit current up `(0,2,0)` and `dt = 0` the pose is
not left unchanged (the up is renormalized to `(0,1,0)`). -/
theorem cameraAdvance_claim_false :
    normSqR (cameraAdvance ⟨⟨4, 4, 4⟩, ⟨0, 0, 1⟩⟩ ⟨⟨0, 0, 4.5⟩, ⟨0, 0, -1⟩⟩ 0.1).up ≠ 1
    ∧ (cameraAdvance ⟨⟨4, 4, 4⟩, ⟨0, 2, 0⟩⟩ ⟨⟨0, 0, 4.5⟩, ⟨0, 1, 0⟩⟩ 0).up ≠ ⟨0, 2, 0⟩ := by
  constructor
  · have ht : min (5 * (0.1 : ℝ)) 1 = 0.5 := by norm_num
    have hlerp : lerpR ⟨0, 0, 1⟩ ⟨0, 0, -1⟩ (0.5 : ℝ) = ⟨0, 0, 0⟩ := by
      unfold lerpR rvadd rsmul rvsub
      exact RVec3.ext_iff.mpr ⟨by norm_num, by norm_num, by norm_num⟩
    unfold cameraAdvance
    simp only [ht, hlerp]
    unfold normalizeR rsmul normSqR
    norm_num
  · have ht : min (5 * (0 : ℝ)) 1 = 0 := by norm_num
    unfold cameraAdvance
    simp only [ht, lerpR_zero]
    have h4 : normSqR (⟨0, 2, 0⟩ : RVec3) = 4 := by
      unfold normSqR
      norm_num
    have hs : Real.sqrt (4 : ℝ) = 2 := by
      rw [show (4 : ℝ) = 2 ^ 2 by norm_num]
      exact Real.sqrt_sq (by norm_num)
    unfold normalizeR
    rw [h4, hs]
    unfold rsmul
    intro hc
    rw [RVec3.ext_iff] at hc
    have hy := hc.2.1
    norm_num at hy

/-- Viewport aspect as computed in `render` (renderer.rs:245):
`width as f32 / height as f32` (exact-arithmetic model; `q / 0 = 0` in `ℚ`
stands where `f32` yields a non-finite value). -/
def aspectOf (width height : ℕ) : ℚ :=
  (width : ℚ) / (height : ℚ)

/-- Camera distance as computed in `render` (renderer.rs:246-251):
base distance 4.5, divided by the aspect when the aspect is below 1. -/
def cameraDistance (width height : ℕ) : ℚ :=
  if aspectOf width height < 1 then 4.5 / aspectOf width height else 4.5

/-- C4 (amended): each frame the camera distance is 4.5 when the aspect
ratio `width/height` is at least 1 and `4.5 / aspect` when it is below 1;
no clamping of the aspect ratio is performed before the division. -/
theorem cameraDistance_spec (width height : ℕ) :
    (1 ≤ aspectOf width height → cameraDistance width height = 4.5)
    ∧ (aspectOf width height < 1 →
        cameraDistance width height = 4.5 / aspectOf width height) := by
  constructor
  · intro h
    unfold cameraDistance
    rw [if_neg (not_lt.mpr h)]
  · intro h
    unfold cameraDistance
    rw [if_pos h]

/-- Witness for C4's amended theorem at the concrete portrait viewport
`(width, height) = (1, 2)`. -/
theorem cameraDistance_spec_inst :
    cameraDistance 1 2 = 4.5 / aspectOf 1 2 :=
  (cameraDistance_spec 1 2).2 (by norm_num [aspectOf])

/-- Counterexample to C4 as stated: for the degenerate viewport
`(width, height) = (0, 1)` the aspect ratio reaching the division is the
unclamped value 0, and the computed distance is `4.5 / 0` (which collapses
to 0 in the exact model instead of any positive clamped distance), so no
minimum clamp guards the division. -/
theorem cameraDistance_no_clamp :
    aspectOf 0 1 = 0
    ∧ aspectOf 0 1 < 1
    ∧ cameraDistance 0 1 = 4.5 / 0
    ∧ ¬ 0 < cameraDistance 0 1 := by
  refine ⟨by norm_num [aspectOf], by norm_num [aspectOf], ?_, ?_⟩
  · unfold cameraDistance
    norm_num [aspectOf]
  · unfold cameraDistance
    norm_num [aspectOf]

/-- RGBA color (models `three_d::Srgba`). -/
structure Color where
  r : ℕ
  g : ℕ
  b : ℕ
  a : ℕ
deriving DecidableEq, Repr

/-- The prize burst palette value `Srgba::new_opaque(255, 215, 0)`. -/
def prizeColor : Color := ⟨255, 215, 0, 255⟩

/-- The default (food) burst palette value `Srgba::new_opaque(200, 50, 50)`. -/
def foodColor : Color := ⟨200, 50, 50, 255⟩

/-- A particle of the burst system (renderer.rs:21-26). -/
structure Particle where
  startPos : Vec3
  velocity : RVec3
  spawnTime : ℚ
  color : Color

/-- The per-frame particle expiry of `render` (renderer.rs:318):
`particles.retain(|p| time - p.spawn_time < 1.0)`. -/
def retainParticles (time : ℚ) (ps : List Particle) : List Particle :=
  ps.filter fun p => decide (time - p.spawnTime < 1)

/-- C5: particle expiry is a pure filter on age: after an advance at
`time`, a particle remains in the active set iff `time - spawnTime < 1`;
the result is a sublist of the input (no particle is otherwise modified or
reordered); and a particle spawned at `T` is present at `T + 0.99` and
absent at `T + 1.01`. -/
theorem retainParticles_spec (time : ℚ) (ps : List Particle) (p : Particle) :
    (p ∈ retainParticles time ps ↔ p ∈ ps ∧ time - p.spawnTime < 1)
    ∧ List.Sublist (retainParticles time ps) ps
    ∧ (∀ T : ℚ, p.spawnTime = T → p ∈ ps → p ∈ retainParticles (T + 0.99) ps)
    ∧ (∀ T : ℚ, p.spawnTime = T → p ∉ retainParticles (T + 1.01) ps) := by
  refine ⟨?_, List.filter_sublist ps, ?_, ?_⟩
  · unfold retainParticles
    rw [List.mem_filter]
    simp only [decide_eq_true_eq]
  · intro T hT hmem
    unfold retainParticles
    rw [List.mem_filter]
    refine ⟨hmem, ?_⟩
    rw [decide_eq_true_eq, hT]
    norm_num
  · intro T hT hmem
    unfold retainParticles at hmem
    rw [List.mem_filter, decide_eq_true_eq, hT] at hmem
    have := hmem.2
    norm_num at this

/-- Witness for C5 at a concrete particle spawned at time 5: it is
retained at time 5.99 and dropped at time 6.01. -/
theorem retainParticles_spec_inst :
    (⟨⟨0, 0, 0⟩, ⟨0, 0, 0⟩, 5, ⟨200, 50, 50, 255⟩⟩ : Particle) ∈
      retainParticles (5 + 0.99) [⟨⟨0, 0, 0⟩, ⟨0, 0, 0⟩, 5, ⟨200, 50, 50, 255⟩⟩]
    ∧ (⟨⟨0, 0, 0⟩, ⟨0, 0, 0⟩, 5, ⟨200, 50, 50, 255⟩⟩ : Particle) ∉
      retainParticles (5 + 1.01) [⟨⟨0, 0, 0⟩, ⟨0, 0, 0⟩, 5, ⟨200, 50, 50, 255⟩⟩] :=
  ⟨(retainParticles_spec (5 + 0.99) _ _).2.2.1 5 rfl (List.mem_singleton.mpr rfl),
   (retainParticles_spec (5 + 1.01) _ _).2.2.2 5 rfl⟩

/-- One random byte mapped to a coordinate in `spawn_particles`
(renderer.rs:376-378): `(b as f32 / 255.0) - 0.5`. -/
def byteCoord (b : ℕ) : ℚ :=
  (b : ℚ) / 255 - 0.5

/-- The raw (pre-normalization) velocity vector built from the three
random bytes of one particle. -/
def byteVec (bs : ℕ × ℕ × ℕ) : Vec3 :=
  ⟨byteCoord bs.1, byteCoord bs.2.1, byteCoord bs.2.2⟩

/-- The particle velocity `vec3(rx, ry, rz).normalize() * 1.0`
(renderer.rs:379). -/
noncomputable def explosionVelocity (bs : ℕ × ℕ × ℕ) : RVec3 :=
  rsmul 1 (normalizeR (toR (byteVec bs)))

/-- The burst color selected by the prize flag (renderer.rs:370). -/
def burstColor (isPrize : Bool) : Color :=
  if isPrize then ⟨255, 215, 0, 255⟩ else ⟨200, 50, 50, 255⟩

/-- One particle of a burst (renderer.rs:381-386). -/
noncomputable def mkBurstParticle (time : ℚ) (center : Vec3) (isPrize : Bool)
    (bs : ℕ × ℕ × ℕ) : Particle :=
  ⟨center, explosionVelocity bs, time, burstColor isPrize⟩

/-- The ten particles pushed by `GameRenderer::spawn_particles`
(renderer.rs:365-388). The randomness source `getrandom` is external and is
modelled as an oracle giving, per loop iteration, either the three bytes it
wrote or `none` on failure, in which case the buffer keeps its `[0u8; 3]`
initialization (`unwrap_or(())` discards the error). -/
noncomputable def burstParticles (time : ℚ) (gridSize : ℕ) (pos : Position)
    (isPrize : Bool) (rng : ℕ → Option (ℕ × ℕ × ℕ)) : List Particle :=
  let cellSize := 2 / (gridSize : ℚ)
  let center := posToVec3 pos cellSize 0.05
  (List.range 10).map fun i => mkBurstParticle time center isPrize ((rng i).getD (0, 0, 0))

/-- `GameRenderer::spawn_particles`: appends the burst to the live set. -/
noncomputable def spawnParticles (time : ℚ) (gridSize : ℕ) (pos : Position)
    (isPrize : Bool) (rng : ℕ → Option (ℕ × ℕ × ℕ)) (ps : List Particle) :
    List Particle :=
  ps ++ burstParticles time gridSize pos isPrize rng

theorem byteCoord_ne_zero (b : ℕ) : byteCoord b ≠ 0 := by
  unfold byteCoord
  intro h
  have hb : (b : ℚ) * 2 = 255 := by
    have h' : (b : ℚ) / 255 = 0.5 := by linarith
    have := (div_eq_iff (by norm_num : (255 : ℚ) ≠ 0)).mp h'
    linarith
  have hnat : (b * 2 : ℕ) = 255 := by exact_mod_cast hb
  omega

theorem normSqR_byteVec_ne_zero (bs : ℕ × ℕ × ℕ) :
    normSqR (toR (byteVec bs)) ≠ 0 := by
  intro h
  have hz := normSqR_eq_zero h
  rw [RVec3.ext_iff] at hz
  have hx : ((byteCoord bs.1 : ℚ) : ℝ) = 0 := hz.1
  have : (byteCoord bs.1 : ℚ) = 0 := by exact_mod_cast hx
  exact byteCoord_ne_zero bs.1 this

theorem rsmul_one (v : RVec3) : rsmul 1 v = v := by
  unfold rsmul
  exact RVec3.ext_iff.mpr ⟨one_mul _, one_mul _, one_mul _⟩

theorem normSqR_explosionVelocity (bs : ℕ × ℕ × ℕ) :
    normSqR (explosionVelocity bs) = 1 := by
  unfold explosionVelocity
  rw [rsmul_one]
  exact normSqR_normalizeR (normSqR_byteVec_ne_zero bs)

/-- C6: `spawn_particles` appends exactly 10 particles to the active set,
each with start position `pos_to_vec3(pos, 2/gridSize, 0.05)`, spawn time
equal to the current render clock, a velocity of unit length, and the
prize palette color when `isPrize` is set, the default palette color
otherwise. -/
theorem spawnBurst_spec (time : ℚ) (gridSize : ℕ) (pos : Position)
    (isPrize : Bool) (rng : ℕ → Option (ℕ × ℕ × ℕ)) (ps : List Particle) :
    spawnParticles time gridSize pos isPrize rng ps =
      ps ++ burstParticles time gridSize pos isPrize rng
    ∧ (burstParticles time gridSize pos isPrize rng).length = 10
    ∧ ∀ p ∈ burstParticles time gridSize pos isPrize rng,
        p.startPos = posToVec3 pos (2 / (gridSize : ℚ)) 0.05
        ∧ p.spawnTime = time
        ∧ normSqR p.velocity = 1
        ∧ p.color = (if isPrize then prizeColor else foodColor) := by
  refine ⟨rfl, by simp [burstParticles], ?_⟩
  intro p hp
  unfold burstParticles at hp
  simp only [List.mem_map, List.mem_range] at hp
  obtain ⟨i, _, rfl⟩ := hp
  refine ⟨rfl, rfl, normSqR_explosionVelocity _, ?_⟩
  cases isPrize
  · rfl
  · rfl

/-- Witness for C6 at concrete inputs (grid 10, cell `(Front, 0, 0)`,
prize burst, all-failing randomness oracle): the burst has 10 particles. -/
theorem spawnBurst_spec_inst :
    (burstParticles 0 10 ⟨Face.Front, 0, 0⟩ true (fun _ => none)).length = 10 :=
  (spawnBurst_spec 0 10 ⟨Face.Front, 0, 0⟩ true (fun _ => none) []).2.1

/-- C7: when the randomness source fails for a particle (the oracle
returns `none`), the particle is still created — no error propagates —
with all its usual fields, and its velocity falls back to the fixed
deterministic direction `normalize(-0.5, -0.5, -0.5)`, which still has
unit length. -/
theorem spawnBurst_rng_fallback (time : ℚ) (gridSize : ℕ) (pos : Position)
    (isPrize : Bool) (rng : ℕ → Option (ℕ × ℕ × ℕ)) (i : ℕ) (hi : i < 10)
    (hfail : rng i = none) :
    ∃ h : i < (burstParticles time gridSize pos isPrize rng).length,
      (burstParticles time gridSize pos isPrize rng).get ⟨i, h⟩ =
        ⟨posToVec3 pos (2 / (gridSize : ℚ)) 0.05,
         rsmul 1 (normalizeR ⟨-0.5, -0.5, -0.5⟩), time, burstColor isPrize⟩
      ∧ normSqR ((burstParticles time gridSize pos isPrize rng).get ⟨i, h⟩).velocity = 1 := by
  have hlen : (burstParticles time gridSize pos isPrize rng).length = 10 := by
    simp [burstParticles]
  refine ⟨by rw [hlen]; exact hi, ?_, ?_⟩
  · have hget : (burstParticles time gridSize pos isPrize rng).get
        ⟨i, by rw [hlen]; exact hi⟩ =
        mkBurstParticle time (posToVec3 pos (2 / (gridSize : ℚ)) 0.05) isPrize
          ((rng i).getD (0, 0, 0)) := by
      unfold burstParticles
      simp
    rw [hget, hfail]
    unfold mkBurstParticle explosionVelocity
    simp only [Option.getD_none]
    have hbv : toR (byteVec ((0, 0, 0) : ℕ × ℕ × ℕ)) = ⟨-0.5, -0.5, -0.5⟩ := by
      unfold toR byteVec byteCoord
      rw [RVec3.ext_iff]
      norm_num
    rw [hbv]
  · have hget : (burstParticles time gridSize pos isPrize rng).get
        ⟨i, by rw [hlen]; exact hi⟩ =
        mkBurstParticle time (posToVec3 pos (2 / (gridSize : ℚ)) 0.05) isPrize
          ((rng i).getD (0, 0, 0)) := by
      unfold burstParticles
      simp
    rw [hget]
    exact normSqR_explosionVelocity _

/-- Witness for C7: the first particle of a burst whose randomness oracle
always fails still exists and carries the fixed fallback direction. -/
theorem spawnBurst_rng_fallback_inst :
    ∃ h : 0 < (burstParticles 0 10 ⟨Face.Front, 0, 0⟩ false (fun _ => none)).length,
      (burstParticles 0 10 ⟨Face.Front, 0, 0⟩ false (fun _ => none)).get ⟨0, h⟩ =
        ⟨posToVec3 ⟨Face.Front, 0, 0⟩ (2 / ((10 : ℕ) : ℚ)) 0.05,
         rsmul 1 (normalizeR ⟨-0.5, -0.5, -0.5⟩), 0, burstColor false⟩
      ∧ normSqR ((burstParticles 0 10 ⟨Face.Front, 0, 0⟩ false
          (fun _ => none)).get ⟨0, h⟩).velocity = 1 :=
  spawnBurst_rng_fallback 0 10 ⟨Face.Front, 0, 0⟩ false (fun _ => none) 0
    (by norm_num) rfl

/-- The three factors of the food transform built in `render`
(renderer.rs:300-306): `Mat4::from_translation(..) * Mat4::from_angle_y(..)
* Mat4::from_scale(..)`, kept as a translation vector, a rotation angle
about the y axis, and a uniform scale. -/
structure FoodTransform where
  translation : RVec3
  rotYAngle : ℝ
  scale : ℝ

/-- Which of the two meshes exists for the food cell. -/
inductive FoodMesh where
  | food
  | prize
deriving DecidableEq, Repr

/-- The animated bounce `(time * 5.0).sin() * 0.05` (renderer.rs:302). -/
noncomputable def foodBounce (time : ℝ) : ℝ :=
  Real.sin (time * 5) * 0.05

/-- The food transform rebuilt each frame (renderer.rs:300-306): translate
to the mapped food cell plus `vec3(0, 0, bounce)`, rotate about y by
`time * 2`, and scale by `0.5 * cellSize` (prize) or `0.4 * cellSize`. -/
noncomputable def foodTransform (food : Position) (isPrize : Bool) (time : ℝ)
    (cellSize offset : ℚ) : FoodTransform :=
  let foodPos := toR (posToVec3 food cellSize offset)
  let bounce := foodBounce time
  let foodScale : ℝ := if isPrize then (cellSize : ℝ) * 0.5 else (cellSize : ℝ) * 0.4
  ⟨rvadd foodPos ⟨0, 0, bounce⟩, time * 2, foodScale⟩

/-- Which mesh receives the food transform (renderer.rs:308-312). -/
def foodTransformTarget (isPrize : Bool) : FoodMesh :=
  if isPrize then FoodMesh.prize else FoodMesh.food

/-- C8 (amended): the food transform is rebuilt each frame as a single
transform whose translation is the mapped food position plus a bounce
offset along the world z axis, sinusoidal in elapsed time, composed with a
rotation about y whose angle is proportional to elapsed time and a uniform
scale; the prize flag selects the scale factor (`0.5` vs `0.4` of a cell)
and which of the two meshes receives the transform. -/
theorem foodTransform_spec (food : Position) (time : ℝ) (cellSize offset : ℚ)
    (isPrize : Bool) :
    (foodTransform food isPrize time cellSize offset).translation =
      rvadd (toR (posToVec3 food cellSize offset)) ⟨0, 0, Real.sin (time * 5) * 0.05⟩
    ∧ (foodTransform food isPrize time cellSize offset).rotYAngle = time * 2
    ∧ (foodTransform food true time cellSize offset).scale = (cellSize : ℝ) * 0.5
    ∧ (foodTransform food false time cellSize offset).scale = (cellSize : ℝ) * 0.4
    ∧ foodTransformTarget true = FoodMesh.prize
    ∧ foodTransformTarget false = FoodMesh.food := by
  refine ⟨rfl, rfl, rfl, rfl, rfl, rfl⟩

/-- Counterexample to C8 as stated: the bounce offset is applied along the
world z axis, not vertically — at time `π/10` (where the bounce equals
`0.05 ≠ 0`) the built translation differs from the mapped food position
plus a vertical (y) offset; moreover the prize flag changes more than the
mesh choice: it changes the transform's scale factor. -/
theorem foodTransform_claim_false :
    (foodTransform ⟨Face.Front, 0, 0⟩ false (Real.pi / 10) (1/5) (1/20)).translation ≠
      rvadd (toR (posToVec3 ⟨Face.Front, 0, 0⟩ (1/5) (1/20)))
        ⟨0, foodBounce (Real.pi / 10), 0⟩
    ∧ foodBounce (Real.pi / 10) ≠ 0
    ∧ (foodTransform ⟨Face.Front, 0, 0⟩ true 0 (1/5) (1/20)).scale ≠
      (foodTransform ⟨Face.Front, 0, 0⟩ false 0 (1/5) (1/20)).scale := by
  have hb : foodBounce (Real.pi / 10) = 0.05 := by
    unfold foodBounce
    rw [show Real.pi / 10 * 5 = Real.pi / 2 by ring, Real.sin_pi_div_two, one_mul]
  refine ⟨?_, ?_, ?_⟩
  · intro hc
    have hy := congrArg RVec3.y hc
    unfold foodTransform rvadd at hy
    rw [hb] at hy
    simp only at hy
    norm_num at hy
  · rw [hb]
    norm_num
  · unfold foodTransform
    simp only
    norm_num

/-- Modelled from the spec: the game snapshot of `crate::game` (not under
`src/`) — the external interface section exposes the ordered snake body,
the snake head's current face, the food position and the prize flag. -/
structure GameState where
  snakeBody : List Position
  headFace : Face
  food : Position
  isPrize : Bool

/-- The snake instance list rebuilt each frame (renderer.rs:289-292): one
translation per body cell, uniformly scaled by `cellSize * 0.6`. -/
def snakeInstances (body : List Position) (cellSize offset : ℚ) : List (Vec3 × ℚ) :=
  body.map fun pos => (posToVec3 pos cellSize offset, cellSize * 0.6)

/-- One particle instance built in `render` (renderer.rs:320-326):
position `start + velocity * age`, scale `(1 - age) * 0.05`. -/
noncomputable def particleInstance (time : ℚ) (p : Particle) : RVec3 × ℚ :=
  (rvadd (toR p.startPos) (rsmul ((time - p.spawnTime : ℚ) : ℝ) p.velocity),
   (1 - (time - p.spawnTime)) * 0.05)

/-- Everything one call of `GameRenderer::render` produces or mutates. -/
structure FrameOutput where
  time : ℚ
  camera : CameraPose
  snakeInsts : List (Vec3 × ℚ)
  foodT : FoodTransform
  foodTarget : FoodMesh
  liveParticles : List Particle
  particleInsts : List (RVec3 × ℚ)

/-- The per-frame pipeline of `GameRenderer::render` (renderer.rs:240-363):
advance the clock, derive the camera distance and target from the head's
face, interpolate the camera, rebuild the snake instances, the food
transform and, after expiry, the particle instances. A total function: an
empty snake body degenerates to an empty instance list. -/
noncomputable def renderFrame (gridSize : ℕ) (game : GameState)
    (width height : ℕ) (cam : CameraPose) (time0 : ℚ) (ps : List Particle)
    (dt : ℚ) : FrameOutput :=
  let time := time0 + dt
  let dist := cameraDistance width height
  let tgt := updateCameraTarget game.headFace dist
  let cam2 := cameraAdvance cam ⟨toR tgt.1, toR tgt.2⟩ (dt : ℝ)
  let cellSize := 2 / (gridSize : ℚ)
  let snake := snakeInstances game.snakeBody cellSize 0.05
  let ft := foodTransform game.food game.isPrize ((time : ℚ) : ℝ) cellSize 0.05
  let live := retainParticles time ps
  ⟨time, cam2, snake, ft, foodTransformTarget game.isPrize, live,
   live.map (particleInstance time)⟩

/-- C9: for a snapshot whose snake body is empty, the per-frame render
pipeline still completes (it is a total function of the snapshot) and
produces an empty snake instance list. -/
theorem renderFrame_empty_snake (gridSize : ℕ) (game : GameState)
    (width height : ℕ) (cam : CameraPose) (time0 : ℚ) (ps : List Particle)
    (dt : ℚ) (h : game.snakeBody = []) :
    (renderFrame gridSize game width height cam time0 ps dt).snakeInsts = [] := by
  show snakeInstances game.snakeBody (2 / (gridSize : ℚ)) 0.05 = []
  rw [h]
  rfl

/-- Witness for C9 at a concrete empty-snake snapshot. -/
theorem renderFrame_empty_snake_inst :
    (renderFrame 10 ⟨[], Face.Front, ⟨Face.Front, 3, 4⟩, false⟩ 800 600
      ⟨⟨4, 4, 4⟩, ⟨0, 1, 0⟩⟩ 0 [] 1).snakeInsts = [] :=
  renderFrame_empty_snake 10 ⟨[], Face.Front, ⟨Face.Front, 3, 4⟩, false⟩ 800 600
    ⟨⟨4, 4, 4⟩, ⟨0, 1, 0⟩⟩ 0 [] 1 rfl

/-- An event touching the particle system: one render frame with its
delta-time, or one burst spawn (the "eaten" notification). -/
inductive REvent where
  | render (dt : ℚ)
  | burst (pos : Position) (isPrize : Bool) (rng : ℕ → Option (ℕ × ℕ × ℕ))

/-- The render clock and the live particle set (`GameRenderer.time`,
`GameRenderer.particles`). -/
structure RState where
  time : ℚ
  particles : List Particle

/-- The state after `GameRenderer::new`: clock 0, no particles. -/
def initState : RState := ⟨0, []⟩

/-- Effect of one event on the clock and the particle set: a render frame
adds `dt` to the clock and then applies expiry (renderer.rs:241,318); a
burst appends ten particles stamped with the current clock. -/
noncomputable def stepEvent (gridSize : ℕ) (s : RState) (e : REvent) : RState :=
  match e with
  | REvent.render dt => ⟨s.time + dt, retainParticles (s.time + dt) s.particles⟩
  | REvent.burst pos isPrize rng =>
      ⟨s.time, spawnParticles s.time gridSize pos isPrize rng s.particles⟩

noncomputable def execEvents (gridSize : ℕ) (s : RState) (es : List REvent) : RState :=
  es.foldl (stepEvent gridSize) s

/-- Every render event of the trace carries a nonnegative delta-time. -/
def nonnegRenders (es : List REvent) : Prop :=
  ∀ dt : ℚ, REvent.render dt ∈ es → 0 ≤ dt

/-- Every live particle was spawned no later than the current clock. -/
def timeInv (s : RState) : Prop :=
  ∀ p ∈ s.particles, p.spawnTime ≤ s.time

theorem timeInv_stepEvent (gridSize : ℕ) (s : RState) (e : REvent)
    (h : timeInv s) (he : ∀ dt : ℚ, e = REvent.render dt → 0 ≤ dt) :
    timeInv (stepEvent gridSize s e) := by
  cases e with
  | render dt =>
    intro p hp
    have hdt : 0 ≤ dt := he dt rfl
    have hmem : p ∈ s.particles := by
      have := List.filter_sublist (l := s.particles)
        (p := fun q => decide (s.time + dt - q.spawnTime < 1))
      exact this.mem hp
    have := h p hmem
    show p.spawnTime ≤ s.time + dt
    linarith
  | burst pos isPrize rng =>
    intro p hp
    show p.spawnTime ≤ s.time
    have hp' : p ∈ s.particles ++ burstParticles s.time gridSize pos isPrize rng := hp
    rcases List.mem_append.mp hp' with hold | hnew
    · exact h p hold
    · unfold burstParticles at hnew
      simp only [List.mem_map, List.mem_range] at hnew
      obtain ⟨i, _, rfl⟩ := hnew
      exact le_refl _

theorem timeInv_execEvents (gridSize : ℕ) :
    ∀ (es : List REvent) (s : RState), timeInv s → nonnegRenders es →
      timeInv (execEvents gridSize s es) := by
  intro es
  induction es with
  | nil => exact fun s h _ => h
  | cons e es ih =>
    intro s h hnn
    show timeInv (List.foldl (stepEvent gridSize) (stepEvent gridSize s e) es)
    refine ih (stepEvent gridSize s e) ?_ ?_
    · refine timeInv_stepEvent gridSize s e h ?_
      intro dt hdt
      exact hnn dt (by rw [hdt]; exact List.mem_cons_self _ _)
    · intro dt hdt
      exact hnn dt (List.mem_cons_of_mem _ hdt)

/-- C10: provided every render call receives `dt ≥ 0`, every live particle
has `spawnTime ≤ clock` along any trace from the initial state; under that
invariant, every particle surviving the expiry of a frame has age in
`[0, 1)` and hence a strictly positive instance scale of at most `0.05`;
and a negative `dt` can violate the invariant — after a burst at clock 5
and a render with `dt = -1`, a live particle has negative age and scale
`0.1 > 0.05`. -/
theorem particleAge_invariant (gridSize : ℕ) :
    (∀ es : List REvent, nonnegRenders es → timeInv (execEvents gridSize initState es))
    ∧ (∀ (s : RState) (dt : ℚ), timeInv s → 0 ≤ dt →
        ∀ p ∈ (stepEvent gridSize s (REvent.render dt)).particles,
          0 ≤ s.time + dt - p.spawnTime
          ∧ s.time + dt - p.spawnTime < 1
          ∧ 0 < (1 - (s.time + dt - p.spawnTime)) * 0.05
          ∧ (1 - (s.time + dt - p.spawnTime)) * 0.05 ≤ 0.05)
    ∧ (∃ p ∈ (stepEvent gridSize
          (stepEvent gridSize ⟨5, []⟩ (REvent.burst ⟨Face.Front, 0, 0⟩ false (fun _ => none)))
          (REvent.render (-1))).particles,
        (stepEvent gridSize
          (stepEvent gridSize ⟨5, []⟩ (REvent.burst ⟨Face.Front, 0, 0⟩ false (fun _ => none)))
          (REvent.render (-1))).time - p.spawnTime = -1
        ∧ 0.05 < (1 - ((stepEvent gridSize
            (stepEvent gridSize ⟨5, []⟩ (REvent.burst ⟨Face.Front, 0, 0⟩ false (fun _ => none)))
            (REvent.render (-1))).time - p.spawnTime)) * 0.05) := by
  refine ⟨?_, ?_, ?_⟩
  · intro es hnn
    refine timeInv_execEvents gridSize es initState ?_ hnn
    intro p hp
    cases hp
  · intro s dt h hdt p hp
    have hmem : p ∈ s.particles := by
      have := List.filter_sublist (l := s.particles)
        (p := fun q => decide (s.time + dt - q.spawnTime < 1))
      exact this.mem hp
    have hage : s.time + dt - p.spawnTime < 1 := by
      have := (List.mem_filter.mp hp).2
      exact of_decide_eq_true this
    have hspawn : p.spawnTime ≤ s.time := h p hmem
    refine ⟨by linarith, hage, by nlinarith, by nlinarith⟩
  · refine ⟨mkBurstParticle 5 (posToVec3 ⟨Face.Front, 0, 0⟩ (2 / (gridSize : ℚ)) 0.05)
      false (((fun _ => none : ℕ → Option (ℕ × ℕ × ℕ)) 0).getD (0, 0, 0)), ?_, ?_, ?_⟩
    · show _ ∈ retainParticles (5 + -1)
        (spawnParticles 5 gridSize ⟨Face.Front, 0, 0⟩ false (fun _ => none) [])
      unfold retainParticles
      rw [List.mem_filter]
      constructor
      · unfold spawnParticles burstParticles
        rw [List.nil_append]
        refine List.mem_map.mpr ⟨0, ?_, rfl⟩
        exact List.mem_range.mpr (by norm_num)
      · rw [decide_eq_true_eq]
        show 5 + -1 - (5 : ℚ) < 1
        norm_num
    · show (5 : ℚ) + -1 - 5 = -1
      norm_num
    · show (0.05 : ℚ) < (1 - (5 + -1 - 5)) * 0.05
      norm_num

/-- Witness for C10 at a concrete nonnegative trace: one burst then one
render with `dt = 1` keeps the invariant from the initial state. -/
theorem particleAge_invariant_inst :
    timeInv (execEvents 10 initState
      [REvent.burst ⟨Face.Front, 0, 0⟩ false (fun _ => none), REvent.render 1]) := by
  refine (particleAge_invariant 10).1 _ ?_
  intro dt hdt
  simp only [List.mem_cons, List.not_mem_nil, or_false] at hdt
  rcases hdt with h | h
  · cases h
  · cases h
    norm_num

end SnakeRenderer
